import Mathlib

/-!
Verification of fake-llm-server (src/fake_llm_server/) against its
specification.  The Python sources are shallowly embedded: Python dicts are
insertion-ordered association lists, loaded `Llama` engine instances are
numbered handles (the number of engine loads that happened before the load
that produced them), exceptions are `Except`, and the startup wait loop is a
tick-indexed recursion (one tick per 0.1 s sleep).
-/

/-- Insertion-ordered dictionary update, mirroring Python `d[k] = v`:
if the key is present its value is replaced in place, otherwise the pair is
appended at the end. -/
def dinsert {β : Type} : List (String × β) → String → β → List (String × β)
  | [], k, v => [(k, v)]
  | (k₁, v₁) :: rest, k, v =>
      if k₁ = k then (k, v) :: rest else (k₁, v₁) :: dinsert rest k v

/-- Dictionary lookup, mirroring Python `d.get(k)`. -/
def dlookup {β : Type} : List (String × β) → String → Option β
  | [], _ => none
  | (k₁, v₁) :: rest, k => if k₁ = k then some v₁ else dlookup rest k

/-- The keys of a dictionary, in insertion order. -/
def dkeys {β : Type} (d : List (String × β)) : List String := d.map Prod.fst

/-- State built up by the model-loading loop of `parse_server_args`
(`_api_server.py`): `loaded` is `loaded_models` (model path → engine handle),
`events` records each engine load in order (one entry per `spec.load()` call,
holding the loaded path), `llms` is the serving configuration being built.
A handle is the number of loads performed before it was created, so two
handles are equal exactly when they came from the same `spec.load()` call. -/
structure LoadState where
  loaded : List (String × Nat)
  events : List String
  llms : List (String × Nat)
deriving DecidableEq, Repr

/-- One iteration of the `for name in model_names` loop of
`parse_server_args`: download the model (its local path is `pathOf name`),
load the engine only if that path was not loaded yet, and bind the name to
the (possibly shared) handle. -/
def loadStep (pathOf : String → String) (st : LoadState) (name : String) :
    LoadState :=
  let p := pathOf name
  match dlookup st.loaded p with
  | some h => { st with llms := dinsert st.llms name h }
  | none =>
      let h := st.events.length
      { loaded := dinsert st.loaded p h
        events := st.events ++ [p]
        llms := dinsert st.llms name h }

/-- The whole model-loading loop of `parse_server_args`. -/
def loadModels (pathOf : String → String) (names : List String)
    (st : LoadState) : LoadState :=
  names.foldl (loadStep pathOf) st

/-- The empty initial `LoadState` (`downloaded_specs`/`loaded_models`/`llms`
all start as empty dicts). -/
def initLoadState : LoadState := ⟨[], [], []⟩

/-- Errors raised by `parse_server_args`: `aliasTarget t` is the
`ValueError` whose message is `f"Alias target '{t}' not in model_names"`;
`keyError k` would be Python's `KeyError` on `llms[target]` (provably
unreachable after validation). -/
inductive ParseError
  | aliasTarget (target : String)
  | keyError (key : String)
deriving DecidableEq, Repr

/-- The alias-application loop of `parse_server_args`
(`llms[alias] = llms[target]` for each alias in order). -/
def applyAliases : List (String × Nat) → List (String × String) →
    Except ParseError (List (String × Nat))
  | llms, [] => .ok llms
  | llms, (a, t) :: rest =>
      match dlookup llms t with
      | some h => applyAliases (dinsert llms a h) rest
      | none => .error (.keyError t)

/-- `parse_server_args` from `_api_server.py`: validate that every alias
target is a member of `model_names` (raising on the first offender, in alias
insertion order), then download/load all models with per-path deduplication,
then map aliases.  `pathOf` abstracts `ModelSpec.from_name(name).download()`,
giving the local artifact path of each identifier; the result pairs the final
serving configuration with the list of engine-load events. -/
def parse_server_args (model_names : List String)
    (aliases : List (String × String)) (pathOf : String → String) :
    Except ParseError (List (String × Nat) × List String) :=
  match aliases.find? (fun kv => !(model_names.contains kv.2)) with
  | some kv => .error (.aliasTarget kv.2)
  | none =>
      let st := loadModels pathOf model_names initLoadState
      (applyAliases st.llms aliases).map (fun llms => (llms, st.events))

/-- A chat message, as in `_ChatMessage` (`role` + `content`). -/
structure ChatMessage where
  role : String
  content : String
deriving DecidableEq, Repr

/-- The validated `_ChatCompletionRequest` (pydantic model): `model` and
`messages` are required, `stream` defaults to `False`, `max_tokens` to
`None`, `temperature` to `0.0` and `top_p` to `0.95`.  Floats carrying
sampling parameters are embedded as rationals. -/
structure ChatCompletionRequest where
  model : String
  messages : List ChatMessage
  stream : Bool
  max_tokens : Option Int
  temperature : ℚ
  top_p : ℚ
deriving DecidableEq, Repr

/-- The wire-level request body before pydantic validation: each declared
field is `none` when absent from the JSON body, and `extra` holds whatever
unknown fields the client sent (name/value pairs). -/
structure RawChatRequest where
  model : Option String
  messages : Option (List ChatMessage)
  stream : Option Bool
  max_tokens : Option Int
  temperature : Option ℚ
  top_p : Option ℚ
  extra : List (String × String)
deriving DecidableEq, Repr

/-- Validation failures of `_ChatCompletionRequest` (pydantic rejects a body
missing a required field). -/
inductive ValidationErr
  | missingModel
  | missingMessages
deriving DecidableEq, Repr

/-- Pydantic validation of `_ChatCompletionRequest` with
`model_config = ConfigDict(extra="ignore")`: required fields must be
present, optional fields take their declared defaults, unknown extra fields
are dropped. -/
def validateChatRequest (raw : RawChatRequest) :
    Except ValidationErr ChatCompletionRequest :=
  match raw.model with
  | none => .error .missingModel
  | some m =>
      match raw.messages with
      | none => .error .missingMessages
      | some msgs =>
          .ok { model := m
                messages := msgs
                stream := raw.stream.getD false
                max_tokens := raw.max_tokens
                temperature := raw.temperature.getD 0
                top_p := raw.top_p.getD (19 / 20) }

/-- Modelled from the spec: the llama_cpp inference engine (an external
collaborator, not part of this repository).  `Llama.create_chat_completion`
either returns generated text or raises; at temperature zero decoding is
greedy and deterministic, at nonzero temperature sampling consumes the
engine RNG state.  `greedy` and `sampled` are the two regimes; `sampled`
additionally depends on the RNG state (a natural-number seed). -/
structure Engine where
  greedy : Nat → List ChatMessage → Option Int → ℚ → Bool →
      Except String String
  sampled : Nat → List ChatMessage → Option Int → ℚ → ℚ → Bool → Nat →
      Except String String

/-- Modelled from the spec: one call to `llm.create_chat_completion` with
the request parameters forwarded by the handler; `seed` is the engine RNG
state at call time.  Temperature exactly zero selects greedy decoding,
which does not consume randomness. -/
def llamaCreateChatCompletion (E : Engine) (llm : Nat)
    (messages : List ChatMessage) (max_tokens : Option Int)
    (temperature top_p : ℚ) (stream : Bool) (seed : Nat) :
    Except String String :=
  if temperature = 0 then E.greedy llm messages max_tokens top_p stream
  else E.sampled llm messages max_tokens temperature top_p stream seed

/-- The error responses of the `POST /v1/chat/completions` handler:
`modelNotFound m` is `HTTPException(status_code=404, detail=...)` naming the
missing model, `inferenceError msg` is
`HTTPException(status_code=500, detail=str(e))` carrying the underlying
exception message. -/
inductive ChatErr
  | modelNotFound (model : String)
  | inferenceError (msg : String)
deriving DecidableEq, Repr

/-- The HTTP status code of each handler error. -/
def ChatErr.status : ChatErr → Nat
  | .modelNotFound _ => 404
  | .inferenceError _ => 500

/-- The `create_chat_completion` route handler of `create_server_app`
(`_api_server.py`): look the requested model up in `app.state.llms`
(a loaded `Llama` object is always truthy, so `if not llm` is exactly the
`None` test), 404 when absent, otherwise forward the request parameters to
the engine, wrapping any engine failure as a 500 carrying its message.  The
returned first component is `app.state.llms` after the call: the handler
never assigns to it. -/
def create_chat_completion (E : Engine) (seed : Nat)
    (llms : List (String × Nat)) (req : ChatCompletionRequest) :
    List (String × Nat) × Except ChatErr String :=
  match dlookup llms req.model with
  | none => (llms, .error (.modelNotFound req.model))
  | some llm =>
      match llamaCreateChatCompletion E llm req.messages req.max_tokens
          req.temperature req.top_p req.stream seed with
      | .ok out => (llms, .ok out)
      | .error e => (llms, .error (.inferenceError e))

/-- One entry of the `GET /v1/models` response. -/
structure ModelEntry where
  id : String
  object : String
  created : Nat
  owned_by : String
deriving DecidableEq, Repr

/-- The `list_models` route handler of `create_server_app`: one entry per
key of `app.state.llms` (iteration over a dict yields its keys in insertion
order), each with the fixed `created` epoch constant and `owned_by` name.
The response wraps this list as `{"object": "list", "data": [...]}` with no
pagination fields. -/
def list_models (llms : List (String × Nat)) : List ModelEntry :=
  llms.map (fun kv => ⟨kv.1, "model", 1677610602, "fake-llm-server"⟩)

/-- A resolved model specification (`ModelSpec` in `_models.py`). -/
structure ModelSpec where
  model_name : String
  repo_id : String
  filename : String
deriving DecidableEq, Repr

/-- Errors of `ModelSpec.from_repo_id`: `resolutionError` is the
`ValueError` raised when `list_repo_files` fails, `noArtifact` the
`ValueError` "No .gguf files found in {repo_id}". -/
inductive ResolveErr
  | resolutionError (repo_id : String)
  | noArtifact (repo_id : String)
deriving DecidableEq, Repr

/-- Python `f.endswith(suffix)`, computed on the character lists so that it
evaluates inside the kernel. -/
def strEndsWith (f sfx : String) : Bool := sfx.toList.isSuffixOf f.toList

/-- Python `"q4_k_m" in f.lower()`: the preferred quantization tag occurs,
case-insensitively, in the filename. -/
def hasPreferredTag (f : String) : Bool :=
  decide ("q4_k_m".toList <:+: f.toList.map Char.toLower)

/-- `ModelSpec.from_repo_id` (`_models.py`): list the repository files
(`listing` abstracts the `list_repo_files` network call, `.error` standing
for any exception it raises), keep the `.gguf` ones, prefer a file whose
lowercased name contains `q4_k_m`, else take the first `.gguf` file. -/
def from_repo_id (repo_id : String) (listing : Except String (List String)) :
    Except ResolveErr ModelSpec :=
  match listing with
  | .error _ => .error (.resolutionError repo_id)
  | .ok files =>
      let gguf_files := files.filter (fun f => strEndsWith f ".gguf")
      match gguf_files with
      | [] => .error (.noArtifact repo_id)
      | g :: _ =>
          let preferred := gguf_files.filter hasPreferredTag
          let filename := match preferred with
            | [] => g
            | p :: _ => p
          .ok ⟨repo_id, repo_id, filename⟩

/-- Outcome of `FakeLLMServer._wait_for_start`: the loop exits `ready` when
`started_event` is set, or raises one of the two `RuntimeError`s. -/
inductive StartOutcome
  | ready
  | workerDied
  | startupTimeout
deriving DecidableEq, Repr

/-- `FakeLLMServer._wait_for_start` (`_serving.py`), one tick per loop
iteration (each iteration ends in `time.sleep(0.1)`, so tick `t` runs at
elapsed time `0.1·t` seconds).  `eventSet t` is `started_event.is_set()` at
tick `t`; `alive t` is `self.thread is not None and self.thread.is_alive()`
at tick `t`.  `timeoutTicks` is the ceiling in ticks (the code compares
`time.time() - start_time > timeout` with `timeout` in seconds, i.e.
`t > 10·timeout` in ticks).  Returns the outcome, whether `self.shutdown()`
was invoked (only on the timeout path, before raising), and the tick at
which the loop exited. -/
def waitForStart (eventSet alive : Nat → Bool) (timeoutTicks : Nat)
    (t : Nat) : StartOutcome × Bool × Nat :=
  if eventSet t then (.ready, false, t)
  else if !alive t then (.workerDied, false, t)
  else if timeoutTicks < t then (.startupTimeout, true, t)
  else waitForStart eventSet alive timeoutTicks (t + 1)
termination_by timeoutTicks + 1 - t
decreasing_by
  simp only [not_lt] at *
  omega

/-- The default readiness ceiling of `_wait_for_start`, in seconds. -/
def defaultStartupTimeoutSeconds : Nat := 300

/-- The default readiness ceiling in 0.1 s ticks. -/
def defaultStartupTimeoutTicks : Nat := 10 * defaultStartupTimeoutSeconds

/-- The state of a `FakeLLMServer` as read by `shutdown`: whether
`self.start_info` exists and its `server` field is set (a `StartInfo`
object itself is always truthy), the server's `should_exit` flag, and
`self.thread` (`none` for Python `None`, `some b` for a thread object whose
`is_alive()` returns `b`). -/
structure ShutdownState where
  hasStartInfo : Bool
  serverSet : Bool
  shouldExit : Bool
  thread : Option Bool
deriving DecidableEq, Repr

/-- `FakeLLMServer.shutdown` (`_serving.py`): set `should_exit` when a
server object is recorded, join the thread (bounded, 5 s) when it exists
and is alive, then drop the thread reference.  Every step is total — no
statement in the body can raise — so the embedding is a plain state
transformer. -/
def shutdown (s : ShutdownState) : ShutdownState :=
  let s₁ := if s.hasStartInfo && s.serverSet then { s with shouldExit := true }
    else s
  { s₁ with thread := none }

/-- The `thread.join(timeout=5)` bound used by `shutdown`, in seconds. -/
def shutdownJoinTimeout : Nat := 5

/-- Worst-case seconds `shutdown` spends blocked: the join only happens when
`self.thread` is a live thread, and then waits at most `shutdownJoinTimeout`
seconds. -/
def shutdownJoinCost (s : ShutdownState) : Nat :=
  if s.thread.getD false then shutdownJoinTimeout else 0

theorem dlookup_dinsert_self {β : Type} (d : List (String × β)) (k : String)
    (v : β) : dlookup (dinsert d k v) k = some v := by
  induction d with
  | nil => simp [dinsert, dlookup]
  | cons kv rest ih =>
      obtain ⟨k₁, v₁⟩ := kv
      by_cases h : k₁ = k <;> simp [dinsert, dlookup, h, ih]

theorem dlookup_dinsert_ne {β : Type} (d : List (String × β)) (k k₂ : String)
    (v : β) (h : k ≠ k₂) : dlookup (dinsert d k v) k₂ = dlookup d k₂ := by
  induction d with
  | nil => simp [dinsert, dlookup, h]
  | cons kv rest ih =>
      obtain ⟨k₁, v₁⟩ := kv
      by_cases h₁ : k₁ = k
      · subst h₁
        simp [dinsert, dlookup, h, Ne.symm h]
      · simp [dinsert, dlookup, h₁, ih]

theorem mem_dkeys_dinsert {β : Type} (d : List (String × β)) (k x : String)
    (v : β) : x ∈ dkeys (dinsert d k v) ↔ x ∈ dkeys d ∨ x = k := by
  induction d with
  | nil => simp [dinsert, dkeys]
  | cons kv rest ih =>
      obtain ⟨k₁, v₁⟩ := kv
      by_cases h : k₁ = k
      · subst h
        simp [dinsert, dkeys]
        tauto
      · simp [dinsert, dkeys, h] at ih ⊢
        tauto

theorem dlookup_isSome_iff {β : Type} (d : List (String × β)) (k : String) :
    (dlookup d k).isSome ↔ k ∈ dkeys d := by
  induction d with
  | nil => simp [dlookup, dkeys]
  | cons kv rest ih =>
      obtain ⟨k₁, v₁⟩ := kv
      have hcons : dkeys ((k₁, v₁) :: rest) = k₁ :: dkeys rest := rfl
      rw [hcons]
      by_cases h : k₁ = k
      · subst h
        simp [dlookup]
      · simp only [dlookup]
        rw [if_neg h, List.mem_cons, ih]
        constructor
        · exact Or.inr
        · rintro (rfl | hm)
          · exact absurd rfl h
          · exact hm

theorem nodup_dkeys_dinsert {β : Type} (d : List (String × β)) (k : String)
    (v : β) (h : (dkeys d).Nodup) : (dkeys (dinsert d k v)).Nodup := by
  induction d with
  | nil => simp [dinsert, dkeys]
  | cons kv rest ih =>
      obtain ⟨k₁, v₁⟩ := kv
      have hcons : dkeys ((k₁, v₁) :: rest) = k₁ :: dkeys rest := rfl
      rw [hcons, List.nodup_cons] at h
      by_cases hk : k₁ = k
      · subst hk
        have hins : dinsert ((k₁, v₁) :: rest) k₁ v = (k₁, v) :: rest := by
          simp [dinsert]
        rw [hins]
        have hcons₂ : dkeys ((k₁, v) :: rest) = k₁ :: dkeys rest := rfl
        rw [hcons₂, List.nodup_cons]
        exact h
      · simp only [dinsert, if_neg hk]
        have hcons₂ : dkeys ((k₁, v₁) :: dinsert rest k v) =
            k₁ :: dkeys (dinsert rest k v) := rfl
        rw [hcons₂, List.nodup_cons]
        refine ⟨?_, ih h.2⟩
        intro hmem
        rcases (mem_dkeys_dinsert rest k k₁ v).1 hmem with hm | he
        · exact h.1 hm
        · exact hk he

/-- C2: `FakeLLMServer.shutdown` never raises (it is a total state
transformer by construction), a second invocation after the server is
stopped is a no-op, invoking it twice gives the same state as once, its
blocking time is bounded by the 5-second join timeout, and when the worker
thread has already died (or was already dropped) it does not block at
all. -/
theorem shutdown_reentrant_and_bounded :
    (∀ s : ShutdownState, shutdown (shutdown s) = shutdown s) ∧
    (∀ s : ShutdownState,
      shutdownJoinCost s ≤ shutdownJoinTimeout ∧ shutdownJoinTimeout = 5) ∧
    (∀ s : ShutdownState, s.thread = some false → shutdownJoinCost s = 0) ∧
    (∀ s : ShutdownState, shutdownJoinCost (shutdown s) = 0) ∧
    (∀ s : ShutdownState, s.thread = none →
      ((s.hasStartInfo && s.serverSet) = true → s.shouldExit = true) →
      shutdown s = s) := by
  refine ⟨?_, ?_, ?_, ?_, ?_⟩
  · intro s
    by_cases h : (s.hasStartInfo && s.serverSet) = true <;>
      simp [shutdown, h]
  · intro s
    by_cases h : s.thread.getD false <;>
      simp [shutdownJoinCost, shutdownJoinTimeout, h]
  · intro s h
    simp [shutdownJoinCost, h]
  · intro s
    simp [shutdown, shutdownJoinCost]
  · intro s hthread hexit
    obtain ⟨hsi, sv, se, th⟩ := s
    simp only at hthread
    subst hthread
    by_cases h : (hsi && sv) = true
    · have hse := hexit h
      simp only at hse
      subst hse
      simp [shutdown, h]
    · simp [shutdown, h]

theorem shutdown_reentrant_and_bounded_witness :
    shutdown (shutdown ⟨true, true, false, some true⟩) =
      shutdown ⟨true, true, false, some true⟩ ∧
    shutdownJoinCost ⟨true, true, false, some true⟩ ≤ shutdownJoinTimeout ∧
    shutdownJoinCost ⟨true, true, false, some false⟩ = 0 ∧
    shutdown ⟨true, true, true, none⟩ = ⟨true, true, true, none⟩ :=
  ⟨shutdown_reentrant_and_bounded.1 ⟨true, true, false, some true⟩,
   (shutdown_reentrant_and_bounded.2.1 ⟨true, true, false, some true⟩).1,
   shutdown_reentrant_and_bounded.2.2.1 ⟨true, true, false, some false⟩ rfl,
   shutdown_reentrant_and_bounded.2.2.2.2 ⟨true, true, true, none⟩ rfl
     (fun _ => rfl)⟩

/-- An engine whose calls all succeed, used to instantiate theorems at
concrete inputs. -/
def okEngine : Engine where
  greedy := fun _ _ _ _ _ => .ok "out"
  sampled := fun _ _ _ _ _ _ _ => .ok "sampled"

/-- An engine whose calls all raise, used to instantiate theorems at
concrete inputs. -/
def errEngine : Engine where
  greedy := fun _ _ _ _ _ => .error "boom"
  sampled := fun _ _ _ _ _ _ _ => .error "boom"

/-- C9: at temperature exactly zero (greedy decoding), the chat-completion
handler's response does not depend on the engine RNG state, so two runs of
identical requests against the same loaded runtime handle produce identical
output. -/
theorem temperature_zero_deterministic :
    ∀ (E : Engine) (llms : List (String × Nat)) (req : ChatCompletionRequest)
      (seed₁ seed₂ : Nat), req.temperature = 0 →
      create_chat_completion E seed₁ llms req =
        create_chat_completion E seed₂ llms req := by
  intro E llms req seed₁ seed₂ h
  simp [create_chat_completion, llamaCreateChatCompletion, h]

theorem temperature_zero_deterministic_witness :
    create_chat_completion okEngine 0 [("m", 0)]
        ⟨"m", [], false, none, 0, 19 / 20⟩ =
      create_chat_completion okEngine 7 [("m", 0)]
        ⟨"m", [], false, none, 0, 19 / 20⟩ :=
  temperature_zero_deterministic okEngine [("m", 0)]
    ⟨"m", [], false, none, 0, 19 / 20⟩ 0 7 rfl

/-- C7: pydantic parsing of the chat-completion body accepts `model`,
`messages`, `stream`, `max_tokens`, `temperature` and `top_p`; whenever the
two required fields are present it succeeds, absent optional fields take the
declared defaults (temperature defaults to exactly zero), and unknown extra
fields never affect the outcome. -/
theorem chat_request_parsing :
    ∀ raw : RawChatRequest,
      (∀ extra₂, validateChatRequest { raw with extra := extra₂ } =
        validateChatRequest raw) ∧
      (∀ m msgs, raw.model = some m → raw.messages = some msgs →
        validateChatRequest raw = .ok
          { model := m
            messages := msgs
            stream := raw.stream.getD false
            max_tokens := raw.max_tokens
            temperature := raw.temperature.getD 0
            top_p := raw.top_p.getD (19 / 20) } ∧
        (raw.temperature = none →
          ∃ req, validateChatRequest raw = .ok req ∧
            req.temperature = 0)) := by
  intro raw
  refine ⟨fun extra₂ => by simp [validateChatRequest], ?_⟩
  intro m msgs hm hmsgs
  refine ⟨by simp [validateChatRequest, hm, hmsgs], ?_⟩
  intro htemp
  exact ⟨{ model := m
           messages := msgs
           stream := raw.stream.getD false
           max_tokens := raw.max_tokens
           temperature := raw.temperature.getD 0
           top_p := raw.top_p.getD (19 / 20) },
         by simp [validateChatRequest, hm, hmsgs],
         by simp [htemp]⟩

theorem chat_request_parsing_witness :
    validateChatRequest
        ⟨some "m", some [⟨"user", "hi"⟩], none, none, none, none,
          [("unknown_field", "x")]⟩ =
      .ok ⟨"m", [⟨"user", "hi"⟩], false, none, 0, 19 / 20⟩ :=
  ((chat_request_parsing
      ⟨some "m", some [⟨"user", "hi"⟩], none, none, none, none,
        [("unknown_field", "x")]⟩).2 "m" [⟨"user", "hi"⟩] rfl rfl).1

/-- C5: the chat-completion handler fails with `modelNotFound` (HTTP 404)
when the requested model is not a key of the serving configuration, leaving
`app.state.llms` untouched; and when the underlying inference call raises,
it fails with `inferenceError` (HTTP 500) carrying the underlying failure
message, again leaving the configuration untouched. -/
theorem chat_completion_error_handling :
    ∀ (E : Engine) (seed : Nat) (llms : List (String × Nat))
      (req : ChatCompletionRequest),
      (dlookup llms req.model = none →
        create_chat_completion E seed llms req =
          (llms, .error (.modelNotFound req.model)) ∧
        (ChatErr.modelNotFound req.model).status = 404) ∧
      (∀ llm msg, dlookup llms req.model = some llm →
        llamaCreateChatCompletion E llm req.messages req.max_tokens
            req.temperature req.top_p req.stream seed = .error msg →
        create_chat_completion E seed llms req =
          (llms, .error (.inferenceError msg)) ∧
        (ChatErr.inferenceError msg).status = 500) := by
  intro E seed llms req
  constructor
  · intro h
    exact ⟨by simp [create_chat_completion, h], rfl⟩
  · intro llm msg hlk herr
    exact ⟨by simp [create_chat_completion, hlk, herr], rfl⟩

theorem chat_completion_error_handling_witness :
    create_chat_completion errEngine 0 []
        ⟨"m", [], false, none, 0, 19 / 20⟩ =
      ([], .error (.modelNotFound "m")) ∧
    create_chat_completion errEngine 0 [("m", 3)]
        ⟨"m", [], false, none, 0, 19 / 20⟩ =
      ([("m", 3)], .error (.inferenceError "boom")) :=
  ⟨((chat_completion_error_handling errEngine 0 []
      ⟨"m", [], false, none, 0, 19 / 20⟩).1 rfl).1,
   ((chat_completion_error_handling errEngine 0 [("m", 3)]
      ⟨"m", [], false, none, 0, 19 / 20⟩).2 3 "boom" (by decide)
      (by simp [llamaCreateChatCompletion, errEngine])).1⟩

/-- C8: `ModelSpec.from_repo_id` keeps only the `.gguf` files of the repo
listing and fails with `noArtifact` exactly when none remain; on success the
selected filename is a listed `.gguf` file, and is the first file whose
lowercased name contains the preferred tag `q4_k_m` whenever any `.gguf`
file does, else the first `.gguf` file; a listing failure becomes
`resolutionError`. -/
theorem from_repo_id_selection :
    ∀ (repo_id : String) (files : List String),
      (from_repo_id repo_id (.ok files) = .error (.noArtifact repo_id) ↔
        ∀ f ∈ files, ¬strEndsWith f ".gguf") ∧
      (∀ g rest,
        files.filter (fun f => strEndsWith f ".gguf") = g :: rest →
        from_repo_id repo_id (.ok files) = .ok
          ⟨repo_id, repo_id,
            match (g :: rest).filter hasPreferredTag with
            | [] => g
            | p :: _ => p⟩) ∧
      (∀ spec, from_repo_id repo_id (.ok files) = .ok spec →
        spec.model_name = repo_id ∧ spec.repo_id = repo_id ∧
        spec.filename ∈ files ∧ strEndsWith spec.filename ".gguf" = true ∧
        ((∃ f ∈ files, strEndsWith f ".gguf" = true ∧
            hasPreferredTag f = true) →
          hasPreferredTag spec.filename = true)) ∧
      (∀ e, from_repo_id repo_id (.error e) =
        .error (.resolutionError repo_id)) := by
  intro repo_id files
  refine ⟨?_, ?_, ?_, fun e => rfl⟩
  · cases hg : files.filter (fun f => strEndsWith f ".gguf") with
    | nil =>
        simp only [from_repo_id, hg]
        simpa using List.filter_eq_nil_iff.1 hg
    | cons g rest =>
        simp only [from_repo_id, hg]
        constructor
        · intro h
          cases (g :: rest).filter hasPreferredTag <;> simp_all
        · intro h
          have hmem : g ∈ files.filter (fun f => strEndsWith f ".gguf") := by
            rw [hg]; exact List.mem_cons_self g rest
          rw [List.mem_filter] at hmem
          exact absurd hmem.2 (by simpa using h g hmem.1)
  · intro g rest hg
    simp [from_repo_id, hg]
  · intro spec hspec
    cases hg : files.filter (fun f => strEndsWith f ".gguf") with
    | nil => simp [from_repo_id, hg] at hspec
    | cons g rest =>
        have hgm : g ∈ files ∧ strEndsWith g ".gguf" = true := by
          have : g ∈ files.filter (fun f => strEndsWith f ".gguf") := by
            rw [hg]; exact List.mem_cons_self g rest
          simpa using List.mem_filter.1 this
        cases hp : (g :: rest).filter hasPreferredTag with
        | nil =>
            have hspec₂ : spec = ⟨repo_id, repo_id, g⟩ := by
              simp [from_repo_id, hg, hp] at hspec
              exact hspec.symm
            subst hspec₂
            refine ⟨rfl, rfl, hgm.1, hgm.2, ?_⟩
            rintro ⟨f, hf, hfg, hft⟩
            have hfmem : f ∈ (g :: rest) := by
              rw [← hg, List.mem_filter]
              exact ⟨hf, hfg⟩
            have : f ∈ (g :: rest).filter hasPreferredTag :=
              List.mem_filter.2 ⟨hfmem, hft⟩
            rw [hp] at this
            exact absurd this (List.not_mem_nil f)
        | cons p ps =>
            have hspec₂ : spec = ⟨repo_id, repo_id, p⟩ := by
              simp [from_repo_id, hg, hp] at hspec
              exact hspec.symm
            subst hspec₂
            have hpm : p ∈ (g :: rest) ∧ hasPreferredTag p = true := by
              have : p ∈ (g :: rest).filter hasPreferredTag := by
                rw [hp]; exact List.mem_cons_self p ps
              simpa using List.mem_filter.1 this
            have hpf : p ∈ files ∧ strEndsWith p ".gguf" = true := by
              have : p ∈ files.filter (fun f => strEndsWith f ".gguf") := by
                rw [hg]; exact hpm.1
              simpa using List.mem_filter.1 this
            exact ⟨rfl, rfl, hpf.1, hpf.2, fun _ => hpm.2⟩

theorem from_repo_id_selection_witness :
    from_repo_id "org/repo" (.ok ["readme.md", "a-q8_0.gguf",
        "b-Q4_K_M.gguf", "c-q4_k_m.gguf"]) =
      .ok ⟨"org/repo", "org/repo", "b-Q4_K_M.gguf"⟩ ∧
    from_repo_id "org/repo" (.ok ["readme.md"]) =
      .error (.noArtifact "org/repo") :=
  ⟨(from_repo_id_selection "org/repo" ["readme.md", "a-q8_0.gguf",
      "b-Q4_K_M.gguf", "c-q4_k_m.gguf"]).2.1 "a-q8_0.gguf"
      ["b-Q4_K_M.gguf", "c-q4_k_m.gguf"] (by decide),
   ((from_repo_id_selection "org/repo" ["readme.md"]).1).2 (by decide)⟩

theorem waitForStart_workerDied (eventSet alive : Nat → Bool)
    (T d : Nat) (hd : d ≤ T + 1)
    (hev : ∀ u, u ≤ d → eventSet u = false)
    (hal : ∀ u, u < d → alive u = true) (hdead : alive d = false) :
    ∀ t, t ≤ d → waitForStart eventSet alive T t = (.workerDied, false, d) := by
  have key : ∀ n t, t ≤ d → d - t = n →
      waitForStart eventSet alive T t = (.workerDied, false, d) := by
    intro n
    induction n with
    | zero =>
        intro t ht hdt
        have hteq : t = d := by omega
        subst hteq
        rw [waitForStart]
        simp [hev t le_rfl, hdead]
    | succ n ih =>
        intro t ht hdt
        have htlt : t < d := by omega
        rw [waitForStart]
        have hT : ¬T < t := by omega
        simp [hev t (by omega), hal t htlt, hT]
        exact ih (t + 1) (by omega) (by omega)
  exact fun t ht => key (d - t) t ht rfl

theorem waitForStart_timeout (eventSet alive : Nat → Bool) (T : Nat)
    (hev : ∀ u, u ≤ T + 1 → eventSet u = false)
    (hal : ∀ u, u ≤ T + 1 → alive u = true) :
    ∀ t, t ≤ T + 1 →
      waitForStart eventSet alive T t = (.startupTimeout, true, T + 1) := by
  have key : ∀ n t, t ≤ T + 1 → T + 1 - t = n →
      waitForStart eventSet alive T t = (.startupTimeout, true, T + 1) := by
    intro n
    induction n with
    | zero =>
        intro t ht hdt
        have hteq : t = T + 1 := by omega
        subst hteq
        rw [waitForStart]
        simp [hev _ le_rfl, hal _ le_rfl]
    | succ n ih =>
        intro t ht hdt
        have htlt : t < T + 1 := by omega
        rw [waitForStart]
        have hT : ¬T < t := by omega
        simp [hev t (by omega), hal t (by omega), hT]
        exact ih (t + 1) (by omega) (by omega)
  exact fun t ht => key (T + 1 - t) t ht rfl

theorem waitForStart_exit_le (eventSet alive : Nat → Bool) (T : Nat) :
    ∀ t, (waitForStart eventSet alive T t).2.2 ≤ max t (T + 1) := by
  have key : ∀ n t, T + 1 - t = n →
      (waitForStart eventSet alive T t).2.2 ≤ max t (T + 1) := by
    intro n
    induction n with
    | zero =>
        intro t hdt
        have hT : T < t := by omega
        rw [waitForStart]
        by_cases he : eventSet t
        · simp [he]
        · by_cases ha : alive t <;> simp [he, ha, hT]
    | succ n ih =>
        intro t hdt
        rw [waitForStart]
        by_cases he : eventSet t
        · simp [he]
        · by_cases ha : alive t
          · have hT : ¬T < t := by omega
            simp [he, ha, hT]
            have := ih (t + 1) (by omega)
            omega
          · simp [he, ha]
  exact fun t => key (T + 1 - t) t rfl

/-- C1: `FakeLLMServer._wait_for_start`, started at tick 0, (a) exits with
`workerDied` at the very tick `d` at which the worker thread is first seen
dead — before the ceiling has run out — whenever the readiness event is not
set by then; (b) when the readiness event never arrives and the thread
stays alive, exits at the first tick past the ceiling with `startupTimeout`,
having invoked `self.shutdown()` first (the `true` component); and (c) in
every case exits no later than one tick past the ceiling — with the default
300-second ceiling, `defaultStartupTimeoutTicks = 3000` ticks of 0.1 s. -/
theorem wait_for_start_never_hangs :
    ∀ (eventSet alive : Nat → Bool) (timeoutTicks : Nat),
      (∀ d, d ≤ timeoutTicks + 1 → (∀ u, u ≤ d → eventSet u = false) →
        (∀ u, u < d → alive u = true) → alive d = false →
        waitForStart eventSet alive timeoutTicks 0 =
          (.workerDied, false, d)) ∧
      ((∀ u, u ≤ timeoutTicks + 1 → eventSet u = false) →
       (∀ u, u ≤ timeoutTicks + 1 → alive u = true) →
        waitForStart eventSet alive timeoutTicks 0 =
          (.startupTimeout, true, timeoutTicks + 1)) ∧
      (waitForStart eventSet alive timeoutTicks 0).2.2 ≤ timeoutTicks + 1 ∧
      defaultStartupTimeoutTicks = 3000 := by
  intro eventSet alive T
  refine ⟨?_, ?_, ?_, rfl⟩
  · intro d hd hev hal hdead
    exact waitForStart_workerDied eventSet alive T d hd hev hal hdead 0
      (Nat.zero_le d)
  · intro hev hal
    exact waitForStart_timeout eventSet alive T hev hal 0 (Nat.zero_le _)
  · simpa using waitForStart_exit_le eventSet alive T 0

theorem wait_for_start_never_hangs_witness :
    waitForStart (fun _ => false) (fun _ => false) 2 0 =
      (.workerDied, false, 0) ∧
    waitForStart (fun _ => false) (fun _ => true) 2 0 =
      (.startupTimeout, true, 3) ∧
    (waitForStart (fun _ => false) (fun _ => true) 2 0).2.2 ≤ 3 :=
  ⟨(wait_for_start_never_hangs (fun _ => false) (fun _ => false) 2).1 0
      (by omega) (fun _ _ => rfl) (fun u hu => absurd hu (Nat.not_lt_zero u))
      rfl,
   (wait_for_start_never_hangs (fun _ => false) (fun _ => true) 2).2.1
      (fun _ _ => rfl) (fun _ _ => rfl),
   (wait_for_start_never_hangs (fun _ => false) (fun _ => true) 2).2.2.1⟩

/-- Invariant of the model-loading loop after processing the names in
`processed`: load events are pairwise distinct paths, `loaded` binds exactly
the loaded paths, handles index into the event list injectively, and every
processed name is bound in `llms` to the handle `loaded` assigns to its
path. -/
structure LoadInv (pathOf : String → String) (processed : List String)
    (st : LoadState) : Prop where
  events_nodup : st.events.Nodup
  loaded_iff : ∀ p, (dlookup st.loaded p).isSome ↔ p ∈ st.events
  handle_lt : ∀ p h, dlookup st.loaded p = some h → h < st.events.length
  handle_inj : ∀ p q h, dlookup st.loaded p = some h →
    dlookup st.loaded q = some h → p = q
  llms_eq : ∀ n, n ∈ processed →
    dlookup st.llms n = dlookup st.loaded (pathOf n)
  llms_some : ∀ n, n ∈ processed → (dlookup st.loaded (pathOf n)).isSome

theorem loadInv_init (pathOf : String → String) :
    LoadInv pathOf [] initLoadState := by
  refine ⟨?_, ?_, ?_, ?_, ?_, ?_⟩ <;> simp [initLoadState, dlookup]

theorem loadStep_inv (pathOf : String → String) (processed : List String)
    (st : LoadState) (n : String) (hinv : LoadInv pathOf processed st) :
    LoadInv pathOf (processed ++ [n]) (loadStep pathOf st n) := by
  cases hlk : dlookup st.loaded (pathOf n) with
  | some h₀ =>
      have hstep : loadStep pathOf st n =
          { st with llms := dinsert st.llms n h₀ } := by
        simp [loadStep, hlk]
      rw [hstep]
      refine ⟨hinv.events_nodup, hinv.loaded_iff, hinv.handle_lt,
        hinv.handle_inj, ?_, ?_⟩
      · intro m hm
        rcases List.mem_append.1 hm with hm | hm
        · by_cases hmn : m = n
          · subst hmn
            rw [dlookup_dinsert_self, hlk]
          · rw [dlookup_dinsert_ne st.llms n m h₀ (fun he => hmn he.symm)]
            exact hinv.llms_eq m hm
        · have hmn : m = n := by simpa using hm
          subst hmn
          rw [dlookup_dinsert_self, hlk]
      · intro m hm
        rcases List.mem_append.1 hm with hm | hm
        · exact hinv.llms_some m hm
        · have hmn : m = n := by simpa using hm
          subst hmn
          simp [hlk]
  | none =>
      have hstep : loadStep pathOf st n =
          ⟨dinsert st.loaded (pathOf n) st.events.length,
           st.events ++ [pathOf n],
           dinsert st.llms n st.events.length⟩ := by
        simp [loadStep, hlk]
      have hpnot : pathOf n ∉ st.events := by
        intro hmem
        have hsome := (hinv.loaded_iff (pathOf n)).2 hmem
        rw [hlk] at hsome
        simp at hsome
      have hproc : ∀ m, m ∈ processed → pathOf m ≠ pathOf n := by
        intro m hm heq
        have hsome := hinv.llms_some m hm
        rw [heq, hlk] at hsome
        simp at hsome
      rw [hstep]
      refine ⟨?_, ?_, ?_, ?_, ?_, ?_⟩
      · refine List.nodup_append.2
          ⟨hinv.events_nodup, List.nodup_singleton _, ?_⟩
        intro x hx hx₂
        rw [List.mem_singleton] at hx₂
        subst hx₂
        exact hpnot hx
      · intro q
        by_cases hq : q = pathOf n
        · subst hq
          simp [dlookup_dinsert_self]
        · rw [show dlookup (dinsert st.loaded (pathOf n) st.events.length) q =
              dlookup st.loaded q from
            dlookup_dinsert_ne st.loaded (pathOf n) q st.events.length
              (fun he => hq he.symm)]
          rw [hinv.loaded_iff q]
          simp [List.mem_append, hq]
      · intro q h hq
        by_cases hqp : q = pathOf n
        · subst hqp
          rw [dlookup_dinsert_self] at hq
          have : h = st.events.length := by
            injection hq
            omega
          subst this
          simp
        · rw [dlookup_dinsert_ne st.loaded (pathOf n) q st.events.length
              (fun he => hqp he.symm)] at hq
          have := hinv.handle_lt q h hq
          simp
          omega
      · intro q r h hq hr
        by_cases hqp : q = pathOf n <;> by_cases hrp : r = pathOf n
        · rw [hqp, hrp]
        · subst hqp
          rw [dlookup_dinsert_self] at hq
          rw [dlookup_dinsert_ne st.loaded (pathOf n) r st.events.length
              (fun he => hrp he.symm)] at hr
          have hlt := hinv.handle_lt r h hr
          have : h = st.events.length := by
            injection hq
            omega
          omega
        · subst hrp
          rw [dlookup_dinsert_self] at hr
          rw [dlookup_dinsert_ne st.loaded (pathOf n) q st.events.length
              (fun he => hqp he.symm)] at hq
          have hlt := hinv.handle_lt q h hq
          have : h = st.events.length := by
            injection hr
            omega
          omega
        · rw [dlookup_dinsert_ne st.loaded (pathOf n) q st.events.length
              (fun he => hqp he.symm)] at hq
          rw [dlookup_dinsert_ne st.loaded (pathOf n) r st.events.length
              (fun he => hrp he.symm)] at hr
          exact hinv.handle_inj q r h hq hr
      · intro m hm
        rcases List.mem_append.1 hm with hm | hm
        · have hne : m ≠ n := by
            intro he
            have hsome := hinv.llms_some m hm
            rw [he, hlk] at hsome
            simp at hsome
          rw [dlookup_dinsert_ne st.llms n m st.events.length
              (fun he => hne he.symm)]
          rw [dlookup_dinsert_ne st.loaded (pathOf n) (pathOf m)
              st.events.length (fun he => hproc m hm he.symm)]
          exact hinv.llms_eq m hm
        · have hmn : m = n := by simpa using hm
          subst hmn
          rw [dlookup_dinsert_self, dlookup_dinsert_self]
      · intro m hm
        rcases List.mem_append.1 hm with hm | hm
        · rw [dlookup_dinsert_ne st.loaded (pathOf n) (pathOf m)
              st.events.length (fun he => hproc m hm he.symm)]
          exact hinv.llms_some m hm
        · have hmn : m = n := by simpa using hm
          subst hmn
          simp [dlookup_dinsert_self]

theorem loadModels_inv (pathOf : String → String) (names : List String) :
    ∀ (processed : List String) (st : LoadState),
      LoadInv pathOf processed st →
      LoadInv pathOf (processed ++ names) (loadModels pathOf names st) := by
  induction names with
  | nil =>
      intro processed st h
      simpa [loadModels] using h
  | cons n rest ih =>
      intro processed st h
      have h₂ := loadStep_inv pathOf processed st n h
      have h₃ := ih (processed ++ [n]) (loadStep pathOf st n) h₂
      simpa [loadModels, List.append_assoc] using h₃

theorem loadModels_inv_all (pathOf : String → String) (names : List String) :
    LoadInv pathOf names (loadModels pathOf names initLoadState) := by
  simpa using loadModels_inv pathOf names [] initLoadState
    (loadInv_init pathOf)

theorem loadStep_keys_nodup (pathOf : String → String) (st : LoadState)
    (n : String) (h : (dkeys st.llms).Nodup) :
    (dkeys (loadStep pathOf st n).llms).Nodup := by
  cases hlk : dlookup st.loaded (pathOf n) with
  | some h₀ =>
      have hllms : (loadStep pathOf st n).llms = dinsert st.llms n h₀ := by
        simp [loadStep, hlk]
      rw [hllms]
      exact nodup_dkeys_dinsert _ _ _ h
  | none =>
      have hllms : (loadStep pathOf st n).llms =
          dinsert st.llms n st.events.length := by
        simp [loadStep, hlk]
      rw [hllms]
      exact nodup_dkeys_dinsert _ _ _ h

theorem loadModels_keys_nodup (pathOf : String → String)
    (names : List String) :
    ∀ st : LoadState, (dkeys st.llms).Nodup →
      (dkeys (loadModels pathOf names st).llms).Nodup := by
  induction names with
  | nil =>
      intro st h
      simpa [loadModels] using h
  | cons n rest ih =>
      intro st h
      have h₂ := ih (loadStep pathOf st n) (loadStep_keys_nodup pathOf st n h)
      simpa [loadModels] using h₂

theorem applyAliases_ok_props (aliases : List (String × String)) :
    ∀ (llms llms₂ : List (String × Nat)),
      applyAliases llms aliases = .ok llms₂ →
      ((dkeys llms).Nodup → (dkeys llms₂).Nodup) ∧
      (∀ x, x ∈ dkeys llms → x ∈ dkeys llms₂) ∧
      (∀ a t, (a, t) ∈ aliases → a ∈ dkeys llms₂) := by
  induction aliases with
  | nil =>
      intro llms llms₂ h
      simp only [applyAliases] at h
      cases h
      exact ⟨id, fun x hx => hx, by simp⟩
  | cons kv rest ih =>
      obtain ⟨a, t⟩ := kv
      intro llms llms₂ h
      cases hlk : dlookup llms t with
      | none =>
          simp only [applyAliases, hlk] at h
          simp at h
      | some h₀ =>
          simp only [applyAliases, hlk] at h
          obtain ⟨hnd, hsub, hal⟩ := ih (dinsert llms a h₀) llms₂ h
          refine ⟨?_, ?_, ?_⟩
          · intro hn
            exact hnd (nodup_dkeys_dinsert _ _ _ hn)
          · intro x hx
            exact hsub x ((mem_dkeys_dinsert llms a x h₀).2 (Or.inl hx))
          · intro a₂ t₂ hmem
            rcases List.mem_cons.1 hmem with heq | hmem₂
            · have ha₂ : a₂ = a := by
                injection heq with h₁ h₂
              subst ha₂
              exact hsub a₂ ((mem_dkeys_dinsert llms a₂ a₂ h₀).2
                (Or.inr rfl))
            · exact hal a₂ t₂ hmem₂

theorem parse_ok_inversion (model_names : List String)
    (aliases : List (String × String)) (pathOf : String → String)
    (llms : List (String × Nat)) (events : List String)
    (h : parse_server_args model_names aliases pathOf = .ok (llms, events)) :
    applyAliases (loadModels pathOf model_names initLoadState).llms aliases =
      .ok llms ∧
    events = (loadModels pathOf model_names initLoadState).events := by
  cases hf : aliases.find? (fun kv => !(model_names.contains kv.2)) with
  | some kv =>
      simp only [parse_server_args, hf] at h
      simp at h
  | none =>
      cases ha : applyAliases
          (loadModels pathOf model_names initLoadState).llms aliases with
      | error e =>
          simp only [parse_server_args, hf, ha, Except.map] at h
          simp at h
      | ok l =>
          simp only [parse_server_args, hf, ha, Except.map] at h
          have hpair : l = llms ∧
              (loadModels pathOf model_names initLoadState).events =
                events := by
            have := h
            simp at this
            exact this
          exact ⟨by rw [← hpair.1], hpair.2.symm⟩

/-- C3: configuration construction rejects any alias whose target is not a
member of the base identifier collection, failing with the configuration
error that names an offending target (the first one, in alias order); in
particular identifiers `["m"]` with aliases `{"a1": "m", "a2": "a1"}` fail
naming `"a1"` — an alias whose target is itself another alias is
rejected. -/
theorem parse_rejects_alias_target :
    (∀ (model_names : List String) (aliases : List (String × String))
        (pathOf : String → String) (a t : String),
        (a, t) ∈ aliases → t ∉ model_names →
        ∃ t₂, t₂ ∉ model_names ∧
          parse_server_args model_names aliases pathOf =
            .error (.aliasTarget t₂)) ∧
    (∀ pathOf, parse_server_args ["m"] [("a1", "m"), ("a2", "a1")] pathOf =
      .error (.aliasTarget "a1")) := by
  constructor
  · intro names aliases pathOf a t hmem hnot
    have hsome : (aliases.find?
        (fun kv => !(names.contains kv.2))).isSome := by
      rw [List.find?_isSome]
      exact ⟨(a, t), hmem, by simpa using hnot⟩
    obtain ⟨kv, hkv⟩ := Option.isSome_iff_exists.1 hsome
    have hp := List.find?_some hkv
    have hnotmem : kv.2 ∉ names := by simpa using hp
    exact ⟨kv.2, hnotmem, by simp only [parse_server_args, hkv]⟩
  · intro pathOf
    rfl

theorem parse_rejects_alias_target_witness :
    (∃ t₂, t₂ ∉ ["m"] ∧
      parse_server_args ["m"] [("a2", "a1")] (fun _ => "p") =
        .error (.aliasTarget t₂)) ∧
    parse_server_args ["m"] [("a1", "m"), ("a2", "a1")] (fun _ => "p") =
      .error (.aliasTarget "a1") :=
  ⟨parse_rejects_alias_target.1 ["m"] [("a2", "a1")] (fun _ => "p")
      "a2" "a1" (by simp) (by simp),
   parse_rejects_alias_target.2 (fun _ => "p")⟩

/-- C4: when two identifiers of the collection resolve to the same artifact
path, construction records exactly one engine-load event for that path and
binds both identifiers to the very same runtime handle; with no aliases,
construction succeeds and returns exactly this configuration. -/
theorem parse_dedup_shared_handle :
    ∀ (model_names : List String) (pathOf : String → String)
      (n₁ n₂ : String),
      n₁ ∈ model_names → n₂ ∈ model_names → pathOf n₁ = pathOf n₂ →
      parse_server_args model_names [] pathOf =
        .ok ((loadModels pathOf model_names initLoadState).llms,
             (loadModels pathOf model_names initLoadState).events) ∧
      (loadModels pathOf model_names initLoadState).events.count
        (pathOf n₁) = 1 ∧
      dlookup (loadModels pathOf model_names initLoadState).llms n₁ =
        dlookup (loadModels pathOf model_names initLoadState).llms n₂ ∧
      (dlookup (loadModels pathOf model_names initLoadState).llms
        n₁).isSome := by
  intro names pathOf n₁ n₂ h₁ h₂ hpath
  have hinv := loadModels_inv_all pathOf names
  refine ⟨rfl, ?_, ?_, ?_⟩
  · have hsome := hinv.llms_some n₁ h₁
    have hmem := (hinv.loaded_iff (pathOf n₁)).1 hsome
    exact List.count_eq_one_of_mem hinv.events_nodup hmem
  · rw [hinv.llms_eq n₁ h₁, hinv.llms_eq n₂ h₂, hpath]
  · rw [hinv.llms_eq n₁ h₁]
    exact hinv.llms_some n₁ h₁

theorem parse_dedup_shared_handle_witness :
    parse_server_args ["x", "y"] [] (fun _ => "p") =
      .ok ((loadModels (fun _ => "p") ["x", "y"] initLoadState).llms,
           (loadModels (fun _ => "p") ["x", "y"] initLoadState).events) ∧
    (loadModels (fun _ => "p") ["x", "y"] initLoadState).events.count
      "p" = 1 ∧
    dlookup (loadModels (fun _ => "p") ["x", "y"] initLoadState).llms "x" =
      dlookup (loadModels (fun _ => "p") ["x", "y"] initLoadState).llms
        "y" ∧
    (dlookup (loadModels (fun _ => "p") ["x", "y"] initLoadState).llms
      "x").isSome :=
  parse_dedup_shared_handle ["x", "y"] (fun _ => "p") "x" "y"
    (by simp) (by simp) rfl

/-- C10: an alias key that collides with a configured identifier silently
overwrites that identifier's entry — aliases are applied after all
identifiers and no collision check exists — so construction succeeds and
the final configuration maps the key to the alias target's runtime handle,
which differs from the handle the identifier itself had loaded whenever
their artifact paths differ. -/
theorem alias_overwrites_identifier_entry :
    ∀ (model_names : List String) (pathOf : String → String) (k t : String),
      k ∈ model_names → t ∈ model_names →
      ∃ llms,
        parse_server_args model_names [(k, t)] pathOf =
          .ok (llms, (loadModels pathOf model_names initLoadState).events) ∧
        dlookup llms k =
          dlookup (loadModels pathOf model_names initLoadState).llms t ∧
        (pathOf k ≠ pathOf t →
          dlookup llms k ≠
            dlookup (loadModels pathOf model_names initLoadState).llms
              k) := by
  intro names pathOf k t hk ht
  have hinv := loadModels_inv_all pathOf names
  have htsome := hinv.llms_some t ht
  obtain ⟨h_t, hh_t⟩ := Option.isSome_iff_exists.1 htsome
  have hllms_t :
      dlookup (loadModels pathOf names initLoadState).llms t = some h_t := by
    rw [hinv.llms_eq t ht, hh_t]
  have hcont : names.contains t = true := by simpa using ht
  have hfind : ([(k, t)] : List (String × String)).find?
      (fun kv => !(names.contains kv.2)) = none := by
    rw [List.find?_eq_none]
    intro x hx
    rw [List.mem_singleton] at hx
    subst hx
    simpa using ht
  refine ⟨dinsert (loadModels pathOf names initLoadState).llms k h_t,
    ?_, ?_, ?_⟩
  · simp only [parse_server_args, hfind, applyAliases, hllms_t, Except.map]
  · rw [dlookup_dinsert_self, hllms_t]
  · intro hne hcontra
    have hksome := hinv.llms_some k hk
    obtain ⟨h_k, hh_k⟩ := Option.isSome_iff_exists.1 hksome
    have hllms_k :
        dlookup (loadModels pathOf names initLoadState).llms k =
          some h_k := by
      rw [hinv.llms_eq k hk, hh_k]
    rw [dlookup_dinsert_self, hllms_k] at hcontra
    have hht : h_t = h_k := by injection hcontra
    subst hht
    exact hne (hinv.handle_inj (pathOf k) (pathOf t) h_t hh_k hh_t)

theorem alias_overwrites_identifier_entry_witness :
    ∃ llms,
      parse_server_args ["a", "b"] [("a", "b")] (fun n => n) =
        .ok (llms,
          (loadModels (fun n => n) ["a", "b"] initLoadState).events) ∧
      dlookup llms "a" =
        dlookup (loadModels (fun n => n) ["a", "b"] initLoadState).llms
          "b" ∧
      ((fun n => n) "a" ≠ (fun n => n) "b" →
        dlookup llms "a" ≠
          dlookup (loadModels (fun n => n) ["a", "b"] initLoadState).llms
            "a") :=
  alias_overwrites_identifier_entry ["a", "b"] (fun n => n) "a" "b"
    (by simp) (by simp)

/-- C6: on every successfully constructed configuration, `GET /v1/models`
returns exactly one entry per configuration key — which covers every
configured identifier and every declared alias — each entry being
`{id := key, object := "model", created := 1677610602,
owned_by := "fake-llm-server"}`, with no pagination (the data list is the
whole configuration); the response is a pure function of the configuration
and request handling never mutates it, so the list is the same for the life
of the server. -/
theorem list_models_complete :
    ∀ (model_names : List String) (aliases : List (String × String))
      (pathOf : String → String) (llms : List (String × Nat))
      (events : List String),
      parse_server_args model_names aliases pathOf = .ok (llms, events) →
      list_models llms = llms.map (fun kv =>
        ⟨kv.1, "model", 1677610602, "fake-llm-server"⟩) ∧
      (∀ n, n ∈ model_names → n ∈ dkeys llms) ∧
      (∀ a t, (a, t) ∈ aliases → a ∈ dkeys llms) ∧
      (∀ k, k ∈ dkeys llms →
        (list_models llms).countP (fun e => e.id == k) = 1) ∧
      (∀ (E : Engine) (seed : Nat) (req : ChatCompletionRequest),
        list_models (create_chat_completion E seed llms req).1 =
          list_models llms) := by
  intro names aliases pathOf llms events h
  obtain ⟨happ, hev⟩ := parse_ok_inversion names aliases pathOf llms events h
  have hinv := loadModels_inv_all pathOf names
  obtain ⟨hnd, hsub, hal⟩ :=
    applyAliases_ok_props aliases
      (loadModels pathOf names initLoadState).llms llms happ
  have hstnodup : (dkeys (loadModels pathOf names initLoadState).llms).Nodup
      := loadModels_keys_nodup pathOf names initLoadState
        (by simp [initLoadState, dkeys])
  have hllmsnodup : (dkeys llms).Nodup := hnd hstnodup
  refine ⟨rfl, ?_, hal, ?_, ?_⟩
  · intro n hn
    have hsome : (dlookup (loadModels pathOf names initLoadState).llms
        n).isSome := by
      rw [hinv.llms_eq n hn]
      exact hinv.llms_some n hn
    exact hsub n ((dlookup_isSome_iff _ n).1 hsome)
  · intro k hk
    have hcount : (list_models llms).countP (fun e => e.id == k) =
        (dkeys llms).count k := by
      simp only [list_models, dkeys, List.countP_map, List.count]
      rfl
    rw [hcount]
    exact List.count_eq_one_of_mem hllmsnodup hk
  · intro E seed req
    cases hlk : dlookup llms req.model with
    | none => simp [create_chat_completion, hlk]
    | some llm =>
        cases h₂ : llamaCreateChatCompletion E llm req.messages
            req.max_tokens req.temperature req.top_p req.stream seed with
        | ok out => simp [create_chat_completion, hlk, h₂]
        | error e => simp [create_chat_completion, hlk, h₂]

theorem list_models_complete_witness :
    (∀ n, n ∈ ["m"] → n ∈ dkeys [("m", 0), ("a", 0)]) ∧
    (∀ a t, (a, t) ∈ [("a", "m")] → a ∈ dkeys [("m", 0), ("a", 0)]) ∧
    (list_models [("m", 0), ("a", 0)]).countP (fun e => e.id == "m") = 1 :=
  have h := list_models_complete ["m"] [("a", "m")] (fun _ => "p")
    [("m", 0), ("a", 0)] ["p"] rfl
  ⟨h.2.1, h.2.2.1, h.2.2.2.1 "m" (by simp [dkeys])⟩
